import Mathlib

/-!
The opentxs-go `message` package: the section parser.

A shallow embedding of `src/message/message.go` (the plaintext section parser
`parseMessage` and its four stages) together with theorems about it.

Modelling conventions

* A Go `string` is a list of characters (`Str`).  Every literal the parser
  compares against (`"-----BEGIN"`, `"-----END"`, `"-----"`, `": "`, `":"`,
  `" \t"`) is ASCII, so prefix, suffix, containment, splitting and trimming
  on characters agree with the byte-wise Go functions.
* A Go slice is a `List`; the `nil` slice is `[]`.  The parser only ever takes
  `len` of a slice, ranges over it, indexes it or re-slices it, and none of
  these distinguish `nil` from an empty slice.
* A Go `error` is `Option GoError`: `none` is the `nil` error, `some msg` is
  `errors.New(msg)`.
* Several results are returned as a tuple, exactly as in Go.
* An index expression that is out of range aborts the Go program with a
  run-time panic; functions that can do so return a `GoResult`.
* `log.Println` and `fmt.Printf` only write output and are not modelled.
* `base64.StdEncoding.DecodeString` and `decompress` (zlib) are parameters of
  `NewMessage`: they return `none` for a non-nil error.
-/

namespace OpenTxs

/-- A Go string, as the list of its characters. -/
abbrev Str := List Char

/-- The message of a non-nil Go `error` value. -/
abbrev GoError := Str

/-- Outcome of running a Go function that may index or re-slice a slice out of
range; both abort the program with a run-time panic. -/
inductive GoResult (α : Type) where
  | returned (a : α) : GoResult α
  | indexOutOfRange : GoResult α
  deriving DecidableEq, Repr

/-- The `Message` struct (`Type` is spelled `Type_`: `Type` is reserved). -/
structure Message where
  Type_ : Str
  Payload : Str
  Signatures : List Str
  deriving DecidableEq, Repr

/-- Constant `sectionBegin`. -/
def sectionBegin : Str := "-----BEGIN".toList

/-- Constant `sectionEndOfLine`. -/
def sectionEndOfLine : Str := "-----".toList

/-- Constant `sectionEnd`. -/
def sectionEnd : Str := "-----END".toList

/-! ## The `strings` functions used by the parser -/

/-- Go `strings.HasPrefix(s, prefix)`. -/
def hasPrefix (s pre : Str) : Bool := pre.isPrefixOf s

/-- Go `strings.HasSuffix(s, suffix)`. -/
def hasSuffix (s suf : Str) : Bool := suf.isSuffixOf s

/-- Go `strings.TrimPrefix(s, prefix)`: `s` without the leading `prefix`, or
`s` itself when it does not start with `prefix`. -/
def trimPrefix (s pre : Str) : Str :=
  if hasPrefix s pre then s.drop pre.length else s

/-- Go `strings.TrimSuffix(s, suffix)`: `s` without the trailing `suffix`, or
`s` itself when it does not end with `suffix`. -/
def trimSuffix (s suf : Str) : Str :=
  if hasSuffix s suf then s.take (s.length - suf.length) else s

/-- Membership in the cutset `" \t"` of `trim`. -/
def inCutset (c : Char) : Bool := c == ' ' || c == '\t'

/-- Go `strings.Contains(s, ":")`. -/
def containsColon (s : Str) : Bool := s.contains ':'

/-- Go `strings.Split(s, ": ")`, scanning left to right; `cur` holds, reversed,
the characters of the piece being read.  The separator cannot overlap itself,
so cutting at every occurrence met from the left is what `Split` does. -/
def splitColonSpaceAux : Str → Str → List Str
  | cur, [] => [cur.reverse]
  | cur, [c] => [(c :: cur).reverse]
  | cur, c :: d :: s =>
    if c = ':' ∧ d = ' ' then cur.reverse :: splitColonSpaceAux [] s
    else splitColonSpaceAux (c :: cur) (d :: s)

/-- Go `strings.Split(s, ": ")`. -/
def splitColonSpace (s : Str) : List Str := splitColonSpaceAux [] s

/-- Number of (non-overlapping) occurrences of `": "` in `s`, Go
`strings.Count(s, ": ")`. -/
def countColonSpace : Str → Nat
  | [] => 0
  | [_] => 0
  | c :: d :: s =>
    if c = ':' ∧ d = ' ' then countColonSpace s + 1 else countColonSpace (d :: s)

/-- Go `strings.Join(elems, "\n")`. -/
def joinLines (elems : List Str) : Str := "\n".toList.intercalate elems

/-! ## `message.go` -/

/-- Function `trim`: `strings.Trim(line, " \t")`. -/
def trim (line : Str) : Str := (line.dropWhile inCutset).rdropWhile inCutset

/-- Function `isCorrectBeginSectionSeperator`. -/
def isCorrectBeginSectionSeperator (line : Str) : Bool :=
  if hasPrefix line sectionBegin && hasSuffix line sectionEndOfLine then true
  else false

/-- Function `isCorrectEndSectionSeperator`. -/
def isCorrectEndSectionSeperator (line : Str) : Bool :=
  if hasPrefix line sectionEnd && hasSuffix line sectionEndOfLine then true
  else false

/-- Function `lineContainsHeader`. -/
def lineContainsHeader (line : Str) : Bool := containsColon line

/-- Function `parseSectionSeperator`. -/
def parseSectionSeperator (section_ : Str) : Str :=
  let section_ := trimPrefix section_ sectionBegin
  let messageType := trim (trimSuffix section_ sectionEndOfLine)
  messageType

/-- Function `trimLeadingEmptyLines`: the suffix starting at the first line
that is not the empty string, `nil` when there is none. -/
def trimLeadingEmptyLines : List Str → List Str
  | [] => []
  | line :: rest => if line ≠ [] then line :: rest else trimLeadingEmptyLines rest

/-- Function `getType`, returning `(rest, messageType, err)`.  The first two
patterns are the test `len(rest) < 2`. -/
def getType (input : List Str) : List Str × Str × Option GoError :=
  match trimLeadingEmptyLines input with
  | [] => ([], [], some "Malformed document less than two lines.".toList)
  | [_] => ([], [], some "Malformed document less than two lines.".toList)
  | sectionSeperator :: rest =>
    if !isCorrectBeginSectionSeperator sectionSeperator then
      ([], [], some ("Header is malformed: ".toList ++ sectionSeperator))
    else
      (rest, parseSectionSeperator sectionSeperator, none)

/-- A Go `map[string]string` as an association list with unique keys. -/
abbrev KvPairs := List (Str × Str)

/-- Map assignment `kvPairs[k] = v`. -/
def KvPairs.set (kvPairs : KvPairs) (k v : Str) : KvPairs :=
  (k, v) :: kvPairs.filter (fun p => p.1 ≠ k)

/-- The `for idx, line := range in` loop of `getHeaders` on the lines from
`idx` on, with the map built so far.  The result is `(rest, kvPairs, err)`;
a `nil` map is `none`. -/
def getHeadersLoop : List Str → KvPairs → List Str × Option KvPairs × Option GoError
  | [], _ => ([], none, some "Invalid transaction header".toList)
  | raw :: later, kvPairs =>
    let line := trim raw
    if line = [] then (raw :: later, some kvPairs, none)
    else
      match splitColonSpace line with
      | [k, v] => getHeadersLoop later (kvPairs.set k v)
      | _ => ([], none, some ("Invalid header kv-pairs: ".toList ++ line))

/-- Function `getHeaders`. -/
def getHeaders (input : List Str) : List Str × Option KvPairs × Option GoError :=
  getHeadersLoop input []

/-- The `for idx, line := range in` loop of `getPayload` on the lines from
`idx` on, with the payload accumulated so far. -/
def getPayloadLoop : List Str → List Str → List Str × List Str × Option GoError
  | [], _ => ([], [], some "Malformed payload".toList)
  | raw :: later, payload =>
    let line := trim raw
    if isCorrectEndSectionSeperator line then ([], payload, none)
    else if isCorrectBeginSectionSeperator line then (raw :: later, payload, none)
    else getPayloadLoop later (payload ++ [line])

/-- Function `getPayload`, returning `(rest, payload, err)`. -/
def getPayload (input : List Str) : List Str × List Str × Option GoError :=
  if input.length < 2 then
    ([], [], some "Expected at least one payload line and an end header".toList)
  else getPayloadLoop input []

/-- One iteration of the loop of `getSignatures` on the state
`(signatures, currentSignature)`. -/
def signatureStep (st : List Str × Str) (line : Str) : List Str × Str :=
  if isCorrectEndSectionSeperator line then (st.1 ++ [st.2], st.2)
  else if isCorrectBeginSectionSeperator line then (st.1, [])
  else if lineContainsHeader line then st
  else (st.1, st.2 ++ line)

/-- Function `getSignatures`, returning `(signatures, err)`.  `in[0]` is
evaluated before anything else and is out of range for an empty slice.  The
source lists three values in the failing `return` of this two-result function;
the duplicated empty slice is dropped here. -/
def getSignatures : List Str → GoResult (List Str × Option GoError)
  | [] => .indexOutOfRange
  | first :: later =>
    if !isCorrectBeginSectionSeperator first then
      .returned ([], some "Expected a list of signatures".toList)
    else
      .returned (((first :: later).foldl signatureStep ([], [])).1, none)

/-- Function `parseMessage`: every stage is run on the remainder returned by
the previous one, whether or not that stage reported an error. -/
def parseMessage (lines : List Str) : GoResult Message :=
  let (rest, messageType, _) := getType lines
  let (rest, _, _) := getHeaders rest
  let (rest, messagePayload, _) := getPayload rest
  match getSignatures rest with
  | .indexOutOfRange => .indexOutOfRange
  | .returned (messageSignatures, _) =>
    .returned
      { Type_ := messageType
        Payload := joinLines messagePayload
        Signatures := messageSignatures }

/-- The eight plaintext lines of Scenario A. -/
def scenarioA : List Str :=
  [ "-----BEGIN SIGNED CONTRACT-----".toList,
    "Version: 1".toList,
    "".toList,
    "something sane".toList,
    "-----BEGIN SIGNATURE-----".toList,
    "something sane".toList,
    "-----END SIGNATURE-----".toList,
    "-----END SIGNED CONTRACT-----".toList ]

/-- A well-formed document whose payload block is closed by an END separator. -/
def endTerminated : List Str :=
  [ "-----BEGIN SIGNED CONTRACT-----".toList,
    "Version: 1".toList,
    "".toList,
    "something sane".toList,
    "-----END SIGNED CONTRACT-----".toList ]

/-- A document whose signature section opens with an indented BEGIN line. -/
def indentedSignature : List Str :=
  [ "-----BEGIN T-----".toList,
    "".toList,
    " -----BEGIN S-----".toList,
    "x".toList ]

/-- A document whose opening separator carries no label. -/
def unlabelled : List Str := [ "-----BEGIN-----".toList, "x".toList ]

/-- A signature section of a document: a BEGIN line, body lines, an END line. -/
structure SignatureSection where
  beginLine : Str
  body : List Str
  endLine : Str
  deriving DecidableEq, Repr

/-- The lines of a signature section, in document order. -/
def SignatureSection.lines (s : SignatureSection) : List Str :=
  s.beginLine :: s.body ++ [s.endLine]

/-- The section is delimited by a BEGIN and an END separator and no body line
is a separator. -/
def SignatureSection.wellFormed (s : SignatureSection) : Prop :=
  isCorrectBeginSectionSeperator s.beginLine = true ∧
    (∀ l ∈ s.body,
      isCorrectBeginSectionSeperator l = false ∧ isCorrectEndSectionSeperator l = false) ∧
    isCorrectEndSectionSeperator s.endLine = true

instance (s : SignatureSection) : Decidable s.wellFormed := by
  unfold SignatureSection.wellFormed
  exact inferInstance

/-- The body lines without a colon, concatenated with nothing in between. -/
def SignatureSection.signature (s : SignatureSection) : Str :=
  (s.body.filter (fun l => decide (':' ∉ l))).flatten

/-- The document made of the given sections, one after the other. -/
def signatureDocument (sections : List SignatureSection) : List Str :=
  (sections.map SignatureSection.lines).flatten

/-- Two signature sections, the first with an internal header line. -/
def twoSections : List SignatureSection :=
  [ { beginLine := "-----BEGIN SIGNATURE-----".toList
      body := ["Version: 1".toList, "abc".toList, "def".toList]
      endLine := "-----END SIGNATURE-----".toList },
    { beginLine := "-----BEGIN SIGNATURE-----".toList
      body := ["ghi".toList]
      endLine := "-----END SIGNATURE-----".toList } ]

/-- Go `strings.Split(s, "\n")`; `cur` holds, reversed, the characters of the
piece being read. -/
def splitNewlineAux : Str → Str → List Str
  | cur, [] => [cur.reverse]
  | cur, c :: s =>
    if c = '\n' then cur.reverse :: splitNewlineAux [] s
    else splitNewlineAux (c :: cur) s

/-- Go `strings.Split(s, "\n")`. -/
def splitNewline (s : Str) : List Str := splitNewlineAux [] s

/-- Function `removeArmoringDelimiters`: the slice expression
`lines[4 : len(lines)-2]`.  It panics unless `4 ≤ len(lines)-2`, the upper
bound being computed in signed integers. -/
def removeArmoringDelimiters (lines : List Str) : GoResult (List Str) :=
  if (4 : Int) ≤ (lines.length : Int) - 2 then
    .returned ((lines.take (lines.length - 2)).drop 4)
  else .indexOutOfRange

/-- Function `NewMessage`, returning `*Message` (`none` is `nil`).  `Data` is
`[]byte`; `decodeString` is `base64.StdEncoding.DecodeString` and `decompress`
is `decompress` followed by the conversion `string(inflatedData)`. -/
def NewMessage {Data : Type} (decodeString : Str → Option Data)
    (decompress : Data → Option Str) (lines : List Str) : GoResult (Option Message) :=
  match removeArmoringDelimiters lines with
  | .indexOutOfRange => .indexOutOfRange
  | .returned lines =>
    match decodeString lines.flatten with
    | none => .returned none
    | some data =>
      match decompress data with
      | none => .returned none
      | some inflatedData =>
        let messageLines := splitNewline inflatedData
        match parseMessage messageLines with
        | .indexOutOfRange => .indexOutOfRange
        | .returned message => .returned (some message)

/-- An armored document of eight lines with a two-line body. -/
def armored : List Str :=
  [ "-----BEGIN OT ARMORED CONTRACT-----".toList,
    "Version: Open Transactions 0.99".toList,
    "Comment: http://opentransactions.org".toList,
    "".toList,
    "eNqdVVuTojoQ".toList,
    "fu6v8smXs1YQ".toList,
    "".toList,
    "-----END OT ARMORED CONTRACT-----".toList ]

/-- Lines handed to the payload stage whose BEGIN line is indented. -/
def indentedPayload : List Str :=
  [ "".toList, " -----BEGIN S-----".toList, "x".toList ]

/-- A signature remainder with content after the last END separator. -/
def signatureRemainder : List Str :=
  [ "-----BEGIN SIGNATURE-----".toList,
    "Version: 1".toList,
    "abc".toList,
    "-----END SIGNATURE-----".toList,
    "def".toList,
    "-----END SIGNED CONTRACT-----".toList ]

/-- The string `s` is the concatenation, with nothing in between, of some of
the lines of `p`, taken in order, none of them a separator or containing a
colon. -/
def BuiltFrom (p : List Str) (s : Str) : Prop :=
  ∃ ls : List Str, List.Sublist ls p ∧
    (∀ l ∈ ls, isCorrectBeginSectionSeperator l = false ∧
      isCorrectEndSectionSeperator l = false ∧ ':' ∉ l) ∧
    s = ls.flatten

/-! ## Facts about `trim` and the separators -/

theorem trim_eq_nil_iff (s : Str) : trim s = [] ↔ ∀ c ∈ s, inCutset c = true := by
  unfold trim
  rw [List.rdropWhile_eq_nil_iff]
  constructor
  · intro h
    by_cases hd : s.dropWhile inCutset = []
    · exact List.dropWhile_eq_nil_iff.mp hd
    · have h1 := List.head_dropWhile_not inCutset s hd
      have h2 := h _ (List.head_mem hd)
      simp [h1] at h2
  · intro h
    rw [List.dropWhile_eq_nil_iff.mpr h]
    simp

theorem trim_head_not_cut (s : Str) (c : Char) (h : (trim s).head? = some c) :
    inCutset c = false := by
  unfold trim at h
  have hne : List.rdropWhile inCutset (s.dropWhile inCutset) ≠ [] := by
    intro h0
    rw [h0] at h
    simp at h
  have hd : s.dropWhile inCutset ≠ [] := by
    intro h0
    rw [h0] at hne
    simp at hne
  have hp := List.rdropWhile_prefix inCutset (s.dropWhile inCutset)
  have e1 := hp.head hne
  have e2 := List.head_dropWhile_not inCutset s hd
  rw [List.head?_eq_head hne] at h
  have e3 : (List.rdropWhile inCutset (s.dropWhile inCutset)).head hne = c :=
    Option.some.inj h
  rw [← e3, e1]
  exact e2

theorem trim_last_not_cut (s : Str) (c : Char) (h : (trim s).getLast? = some c) :
    inCutset c = false := by
  unfold trim at h
  have hne : List.rdropWhile inCutset (s.dropWhile inCutset) ≠ [] := by
    intro h0
    rw [h0] at h
    simp at h
  have e2 := List.rdropWhile_last_not inCutset (s.dropWhile inCutset) hne
  rw [List.getLast?_eq_getLast _ hne] at h
  have e3 := Option.some.inj h
  rw [← e3]
  simpa using e2

/-- A line accepted by `isCorrectBeginSectionSeperator` is the begin marker,
a label and the end-of-line marker, in this order and without overlap. -/
theorem begin_separator_shape (line : Str)
    (h : isCorrectBeginSectionSeperator line = true) :
    ∃ label, line = sectionBegin ++ label ++ sectionEndOfLine := by
  unfold isCorrectBeginSectionSeperator hasPrefix hasSuffix at h
  have h' : sectionBegin.isPrefixOf line = true ∧ sectionEndOfLine.isSuffixOf line = true := by
    simpa using h
  obtain ⟨t, ht⟩ := List.isPrefixOf_iff_prefix.mp h'.1
  have hs : sectionEndOfLine <:+ line := List.isSuffixOf_iff_suffix.mp h'.2
  subst ht
  by_cases hlen : sectionEndOfLine.length ≤ t.length
  · have := List.suffix_of_suffix_length_le hs (List.suffix_append sectionBegin t) hlen
    obtain ⟨label, hl⟩ := this
    exact ⟨label, by rw [← hl, List.append_assoc]⟩
  · exfalso
    have h2 := h'.2
    have hlt : t.length < 5 := by
      have : sectionEndOfLine.length = 5 := by decide
      omega
    match t, hlt with
    | [], _ => revert h2; decide
    | [a], _ => simp [sectionBegin, sectionEndOfLine, List.isSuffixOf] at h2
    | [a, b], _ => simp [sectionBegin, sectionEndOfLine, List.isSuffixOf] at h2
    | [a, b, c], _ => simp [sectionBegin, sectionEndOfLine, List.isSuffixOf] at h2
    | [a, b, c, d], _ => simp [sectionBegin, sectionEndOfLine, List.isSuffixOf] at h2

theorem isBegin_of_shape (label : Str) :
    isCorrectBeginSectionSeperator (sectionBegin ++ label ++ sectionEndOfLine) = true := by
  unfold isCorrectBeginSectionSeperator hasPrefix hasSuffix
  have h1 : sectionBegin.isPrefixOf (sectionBegin ++ label ++ sectionEndOfLine) = true := by
    rw [List.isPrefixOf_iff_prefix, List.append_assoc]
    exact List.prefix_append _ _
  have h2 : sectionEndOfLine.isSuffixOf (sectionBegin ++ label ++ sectionEndOfLine) = true := by
    rw [List.isSuffixOf_iff_suffix]
    exact List.suffix_append _ _
  rw [h1, h2]
  rfl

theorem parseSectionSeperator_shape (label : Str) :
    parseSectionSeperator (sectionBegin ++ label ++ sectionEndOfLine) = trim label := by
  have h1 : hasPrefix (sectionBegin ++ label ++ sectionEndOfLine) sectionBegin = true := by
    unfold hasPrefix
    rw [List.isPrefixOf_iff_prefix, List.append_assoc]
    exact List.prefix_append _ _
  have h2 : hasSuffix (label ++ sectionEndOfLine) sectionEndOfLine = true := by
    unfold hasSuffix
    rw [List.isSuffixOf_iff_suffix]
    exact List.suffix_append _ _
  unfold parseSectionSeperator trimPrefix
  simp only [h1, if_true]
  rw [List.append_assoc, List.drop_left]
  unfold trimSuffix
  simp only [h2, if_true]
  rw [List.length_append, Nat.add_sub_cancel, List.take_left]

/-- No line is both a BEGIN and an END separator. -/
theorem not_begin_of_end (line : Str) (h : isCorrectEndSectionSeperator line = true) :
    isCorrectBeginSectionSeperator line = false := by
  unfold isCorrectEndSectionSeperator hasPrefix at h
  have h' : sectionEnd.isPrefixOf line = true := by
    by_contra hc
    simp [hc] at h
  obtain ⟨t, ht⟩ := List.isPrefixOf_iff_prefix.mp h'
  subst ht
  unfold isCorrectBeginSectionSeperator hasPrefix
  have : sectionBegin.isPrefixOf (sectionEnd ++ t) = false := by
    simp [sectionBegin, sectionEnd, List.isPrefixOf]
  simp [this]

theorem trimLeadingEmptyLines_blanks (blanks rest : List Str) (line : Str)
    (hb : ∀ b ∈ blanks, b = []) (hl : line ≠ []) :
    trimLeadingEmptyLines (blanks ++ line :: rest) = line :: rest := by
  induction blanks with
  | nil => simp [trimLeadingEmptyLines, hl]
  | cons b bs ih =>
    have hb0 : b = [] := hb b (List.mem_cons_self _ _)
    subst hb0
    simp only [List.cons_append, trimLeadingEmptyLines]
    simpa using ih (fun x hx => hb x (List.mem_cons_of_mem _ hx))

/-! ## Stage failures and remainders -/

theorem getType_short (input : List Str) (h : (trimLeadingEmptyLines input).length < 2) :
    getType input = ([], [], some "Malformed document less than two lines.".toList) := by
  unfold getType
  match hm : trimLeadingEmptyLines input with
  | [] => rfl
  | [_] => rfl
  | a :: b :: tl =>
    rw [hm] at h
    simp only [List.length_cons] at h
    omega

theorem getType_long (input : List Str) (a b : Str) (tl : List Str)
    (h : trimLeadingEmptyLines input = a :: b :: tl) :
    getType input =
      if isCorrectBeginSectionSeperator a = true then (b :: tl, parseSectionSeperator a, none)
      else ([], [], some ("Header is malformed: ".toList ++ a)) := by
  unfold getType
  rw [h]
  by_cases hb : isCorrectBeginSectionSeperator a = true
  · simp [hb]
  · simp [hb]

theorem getType_err_rest (input : List Str) (h : (getType input).2.2 ≠ none) :
    (getType input).1 = [] := by
  match hm : trimLeadingEmptyLines input with
  | [] => rw [getType_short input (by simp [hm])]
  | [_] => rw [getType_short input (by simp [hm])]
  | a :: b :: tl =>
    rw [getType_long input a b tl hm] at h ⊢
    by_cases hb : isCorrectBeginSectionSeperator a = true
    · simp [hb] at h
    · simp [hb]

theorem getHeadersLoop_err_rest (input : List Str) (kv : KvPairs)
    (h : (getHeadersLoop input kv).2.2 ≠ none) : (getHeadersLoop input kv).1 = [] := by
  induction input generalizing kv with
  | nil => rfl
  | cons raw later ih =>
    unfold getHeadersLoop at h ⊢
    by_cases hb : trim raw = []
    · simp [hb] at h
    · simp only [hb, if_false] at h ⊢
      split
      · rename_i k v heq
        rw [heq] at h
        exact ih _ h
      · rfl

theorem getPayloadLoop_err_rest (input acc : List Str)
    (h : (getPayloadLoop input acc).2.2 ≠ none) : (getPayloadLoop input acc).1 = [] := by
  induction input generalizing acc with
  | nil => rfl
  | cons raw later ih =>
    unfold getPayloadLoop at h ⊢
    by_cases he : isCorrectEndSectionSeperator (trim raw) = true
    · simp [he]
    · by_cases hb : isCorrectBeginSectionSeperator (trim raw) = true
      · simp [he, hb] at h
      · simp only [he, hb, if_false] at h ⊢
        exact ih _ h

theorem getPayload_err_rest (input : List Str) (h : (getPayload input).2.2 ≠ none) :
    (getPayload input).1 = [] := by
  unfold getPayload at h ⊢
  by_cases hl : input.length < 2
  · simp [hl]
  · simp only [hl, if_false] at h ⊢
    exact getPayloadLoop_err_rest _ _ h

theorem getHeaders_nil_err : (getHeaders []).2.2 ≠ none := by decide

theorem getPayload_nil_err : (getPayload []).2.2 ≠ none := by decide

/-! ## The signature loop -/

theorem signatureStep_body (body : List Str) (st : List Str × Str)
    (h : ∀ l ∈ body,
      isCorrectBeginSectionSeperator l = false ∧ isCorrectEndSectionSeperator l = false) :
    body.foldl signatureStep st
      = (st.1, st.2 ++ (body.filter (fun l => decide (':' ∉ l))).flatten) := by
  induction body generalizing st with
  | nil => simp
  | cons l ls ih =>
    have hl := h l (List.mem_cons_self _ _)
    have hls := fun x hx => h x (List.mem_cons_of_mem _ hx)
    rw [List.foldl_cons, ih _ hls]
    by_cases hc : ':' ∈ l
    · simp [signatureStep, hl.1, hl.2, lineContainsHeader, containsColon, hc]
    · simp [signatureStep, hl.1, hl.2, lineContainsHeader, containsColon, hc]

theorem signatureStep_section (s : SignatureSection) (st : List Str × Str)
    (h : s.wellFormed) :
    s.lines.foldl signatureStep st = (st.1 ++ [s.signature], s.signature) := by
  obtain ⟨hb, hbody, he⟩ := h
  have hnb : isCorrectEndSectionSeperator s.beginLine = false := by
    by_contra hc
    have := not_begin_of_end s.beginLine (by simpa using hc)
    rw [hb] at this
    simp at this
  unfold SignatureSection.lines
  rw [List.cons_append, List.foldl_cons, List.foldl_append, signatureStep_body _ _ hbody]
  simp [signatureStep, hb, hnb, he, SignatureSection.signature]

theorem signatureStep_document (sections : List SignatureSection) (st : List Str × Str)
    (h : ∀ s ∈ sections, s.wellFormed) :
    ((signatureDocument sections).foldl signatureStep st).1
      = st.1 ++ sections.map SignatureSection.signature := by
  induction sections generalizing st with
  | nil => simp [signatureDocument]
  | cons s ss ih =>
    have hs := h s (List.mem_cons_self _ _)
    have hss := fun x hx => h x (List.mem_cons_of_mem _ hx)
    have hd : signatureDocument (s :: ss) = s.lines ++ signatureDocument ss := by
      simp [signatureDocument]
    rw [hd, List.foldl_append, signatureStep_section s st hs, ih _ hss]
    simp

/-! ## Splitting a header line -/

theorem splitColonSpaceAux_length : ∀ (s cur : Str),
    (splitColonSpaceAux cur s).length = countColonSpace s + 1
  | [], _ => rfl
  | [_], _ => rfl
  | c :: d :: s, cur => by
    unfold splitColonSpaceAux countColonSpace
    by_cases h : c = ':' ∧ d = ' '
    · simp only [h, and_self, if_true, List.length_cons]
      rw [splitColonSpaceAux_length s []]
    · simp only [h, if_false]
      exact splitColonSpaceAux_length (d :: s) (c :: cur)

theorem splitColonSpace_length (s : Str) :
    (splitColonSpace s).length = countColonSpace s + 1 :=
  splitColonSpaceAux_length s []

theorem countColonSpace_absent : ∀ (s : Str), ¬ (": ".toList <:+: s) → countColonSpace s = 0
  | [], _ => rfl
  | [_], _ => rfl
  | c :: d :: s, h => by
    unfold countColonSpace
    by_cases hcd : c = ':' ∧ d = ' '
    · exfalso
      apply h
      rw [hcd.1, hcd.2]
      exact ⟨[], s, rfl⟩
    · simp only [hcd, if_false]
      apply countColonSpace_absent (d :: s)
      intro hin
      exact h (hin.trans (List.suffix_cons c (d :: s)).isInfix)

theorem countColonSpace_cons_cons (c d : Char) (s : Str) :
    countColonSpace (c :: d :: s)
      = if c = ':' ∧ d = ' ' then countColonSpace s + 1 else countColonSpace (d :: s) := by
  rw [countColonSpace]

theorem countColonSpace_occurrence : ∀ (a r : Str),
    countColonSpace r + 1 ≤ countColonSpace (a ++ ": ".toList ++ r)
  | [], r => by
    show countColonSpace r + 1 ≤ countColonSpace (':' :: ' ' :: r)
    rw [countColonSpace_cons_cons]
    simp
  | [c], r => by
    show countColonSpace r + 1 ≤ countColonSpace (c :: ':' :: ' ' :: r)
    have h : ¬ (c = ':' ∧ ':' = ' ') := by
      intro hc
      exact absurd hc.2 (by decide)
    rw [countColonSpace_cons_cons, if_neg h, countColonSpace_cons_cons]
    simp
  | c :: d :: a, r => by
    show countColonSpace r + 1 ≤ countColonSpace (c :: d :: (a ++ ": ".toList ++ r))
    rw [countColonSpace_cons_cons]
    by_cases hcd : c = ':' ∧ d = ' '
    · rw [if_pos hcd]
      have := countColonSpace_occurrence a r
      omega
    · rw [if_neg hcd]
      exact countColonSpace_occurrence (d :: a) r

theorem splitColonSpace_absent (s : Str) (h : ¬ (": ".toList <:+: s)) :
    (splitColonSpace s).length = 1 := by
  rw [splitColonSpace_length, countColonSpace_absent s h]

theorem splitColonSpace_twice (a b c : Str) :
    3 ≤ (splitColonSpace (a ++ ": ".toList ++ b ++ ": ".toList ++ c)).length := by
  rw [splitColonSpace_length]
  have h1 := countColonSpace_occurrence a (b ++ ": ".toList ++ c)
  have h2 := countColonSpace_occurrence b c
  have e : a ++ ": ".toList ++ (b ++ ": ".toList ++ c)
      = a ++ ": ".toList ++ b ++ ": ".toList ++ c := by
    simp [List.append_assoc]
  rw [e] at h1
  omega

/-! ## The header loop -/

theorem getHeadersLoop_bad (pre post : List Str) (bad : Str) (kv : KvPairs)
    (hpre : ∀ p ∈ pre, trim p ≠ []) (hbad : trim bad ≠ [])
    (hsplit : (splitColonSpace (trim bad)).length ≠ 2) :
    (getHeadersLoop (pre ++ bad :: post) kv).1 = [] ∧
      (getHeadersLoop (pre ++ bad :: post) kv).2.1 = none ∧
      (getHeadersLoop (pre ++ bad :: post) kv).2.2 ≠ none := by
  induction pre generalizing kv with
  | nil =>
    simp only [List.nil_append]
    unfold getHeadersLoop
    simp only [hbad, if_false]
    split
    · rename_i k v heq
      rw [heq] at hsplit
      simp at hsplit
    · simp
  | cons p ps ih =>
    have hp := hpre p (List.mem_cons_self _ _)
    have hps := fun x hx => hpre x (List.mem_cons_of_mem _ hx)
    simp only [List.cons_append]
    unfold getHeadersLoop
    simp only [hp, if_false]
    split
    · exact ih _ hps
    · simp

theorem getHeadersLoop_unterminated (input : List Str) (kv : KvPairs)
    (h : ∀ l ∈ input, trim l ≠ [] ∧ (splitColonSpace (trim l)).length = 2) :
    getHeadersLoop input kv = ([], none, some "Invalid transaction header".toList) := by
  induction input generalizing kv with
  | nil => rfl
  | cons l ls ih =>
    have hl := h l (List.mem_cons_self _ _)
    have hls := fun x hx => h x (List.mem_cons_of_mem _ hx)
    obtain ⟨k, v, hkv⟩ := List.length_eq_two.mp hl.2
    unfold getHeadersLoop
    simp only [hl.1, if_false]
    rw [hkv]
    exact ih _ hls

/-! ## The payload loop -/

theorem getPayloadLoop_no_separator (input acc : List Str)
    (h : ∀ l ∈ input, isCorrectBeginSectionSeperator (trim l) = false ∧
      isCorrectEndSectionSeperator (trim l) = false) :
    getPayloadLoop input acc = ([], [], some "Malformed payload".toList) := by
  induction input generalizing acc with
  | nil => rfl
  | cons l ls ih =>
    have hl := h l (List.mem_cons_self _ _)
    have hls := fun x hx => h x (List.mem_cons_of_mem _ hx)
    unfold getPayloadLoop
    simp only [hl.1, hl.2, Bool.false_eq_true, if_false]
    exact ih _ hls

theorem getPayloadLoop_separator (pre post : List Str) (line : Str) (acc : List Str)
    (hpre : ∀ p ∈ pre, isCorrectBeginSectionSeperator (trim p) = false ∧
      isCorrectEndSectionSeperator (trim p) = false)
    (hline : isCorrectBeginSectionSeperator (trim line) = true ∨
      isCorrectEndSectionSeperator (trim line) = true) :
    getPayloadLoop (pre ++ line :: post) acc
      = (if isCorrectEndSectionSeperator (trim line) = true then [] else line :: post,
          acc ++ pre.map trim, none) := by
  induction pre generalizing acc with
  | nil =>
    simp only [List.nil_append, List.map_nil, List.append_nil]
    unfold getPayloadLoop
    by_cases he : isCorrectEndSectionSeperator (trim line) = true
    · simp [he]
    · have hb : isCorrectBeginSectionSeperator (trim line) = true := by
        cases hline with
        | inl hb => exact hb
        | inr he2 => exact absurd he2 he
      simp [he, hb]
  | cons p ps ih =>
    have hp := hpre p (List.mem_cons_self _ _)
    have hps := fun x hx => hpre x (List.mem_cons_of_mem _ hx)
    simp only [List.cons_append]
    unfold getPayloadLoop
    simp only [hp.1, hp.2, Bool.false_eq_true, if_false]
    rw [ih _ hps]
    simp

/-- A list with a separator line splits at the first one. -/
theorem first_separator_split (input : List Str)
    (h : ∃ l ∈ input, isCorrectBeginSectionSeperator (trim l) = true ∨
      isCorrectEndSectionSeperator (trim l) = true) :
    ∃ pre line post, input = pre ++ line :: post ∧
      (∀ p ∈ pre, isCorrectBeginSectionSeperator (trim p) = false ∧
        isCorrectEndSectionSeperator (trim p) = false) ∧
      (isCorrectBeginSectionSeperator (trim line) = true ∨
        isCorrectEndSectionSeperator (trim line) = true) := by
  induction input with
  | nil =>
    obtain ⟨l, hl, _⟩ := h
    simp at hl
  | cons x xs ih =>
    by_cases hx : isCorrectBeginSectionSeperator (trim x) = true ∨
        isCorrectEndSectionSeperator (trim x) = true
    · exact ⟨[], x, xs, rfl, by simp, hx⟩
    · have hx2 : isCorrectBeginSectionSeperator (trim x) = false ∧
          isCorrectEndSectionSeperator (trim x) = false := by
        simpa [not_or] using hx
      obtain ⟨l, hl, hsep⟩ := h
      have hmem : l ∈ xs := by
        cases List.mem_cons.mp hl with
        | inl heq => subst heq; exact absurd hsep hx
        | inr hm => exact hm
      obtain ⟨pre, line, post, he, hpre, hline⟩ := ih ⟨l, hmem, hsep⟩
      refine ⟨x :: pre, line, post, by rw [he]; rfl, ?_, hline⟩
      intro p hp
      cases List.mem_cons.mp hp with
      | inl heq => subst heq; exact hx2
      | inr hm => exact hpre p hm

/-! ## Shape of the inputs on which a stage succeeds -/

theorem getPayload_success_shape (input : List Str) (h : (getPayload input).2.2 = none) :
    2 ≤ input.length ∧ ∃ pre line post, input = pre ++ line :: post ∧
      (∀ p ∈ pre, isCorrectBeginSectionSeperator (trim p) = false ∧
        isCorrectEndSectionSeperator (trim p) = false) ∧
      (isCorrectBeginSectionSeperator (trim line) = true ∨
        isCorrectEndSectionSeperator (trim line) = true) ∧
      getPayload input
        = (if isCorrectEndSectionSeperator (trim line) = true then [] else line :: post,
            pre.map trim, none) := by
  unfold getPayload at h ⊢
  by_cases hl : input.length < 2
  · simp [hl] at h
  · simp only [hl, if_false] at h ⊢
    refine ⟨by omega, ?_⟩
    by_cases hex : ∃ l ∈ input, isCorrectBeginSectionSeperator (trim l) = true ∨
        isCorrectEndSectionSeperator (trim l) = true
    · obtain ⟨pre, line, post, he, hpre, hline⟩ := first_separator_split input hex
      refine ⟨pre, line, post, he, hpre, hline, ?_⟩
      rw [he, getPayloadLoop_separator pre post line [] hpre hline]
      simp
    · exfalso
      have hno : ∀ l ∈ input, isCorrectBeginSectionSeperator (trim l) = false ∧
          isCorrectEndSectionSeperator (trim l) = false := by
        intro l hmem
        constructor
        · by_contra hb
          exact hex ⟨l, hmem, Or.inl (by simpa using hb)⟩
        · by_contra he
          exact hex ⟨l, hmem, Or.inr (by simpa using he)⟩
      rw [getPayloadLoop_no_separator input [] hno] at h
      simp at h

theorem getHeadersLoop_success_shape (input : List Str) (kv : KvPairs)
    (h : (getHeadersLoop input kv).2.2 = none) :
    ∃ pre blank post, input = pre ++ blank :: post ∧ trim blank = [] ∧
      (∀ p ∈ pre, trim p ≠ [] ∧ (splitColonSpace (trim p)).length = 2) ∧
      (getHeadersLoop input kv).1 = blank :: post := by
  induction input generalizing kv with
  | nil => simp [getHeadersLoop] at h
  | cons raw later ih =>
    unfold getHeadersLoop at h ⊢
    by_cases hb : trim raw = []
    · exact ⟨[], raw, later, rfl, hb, by simp, by simp [hb]⟩
    · simp only [hb, if_false] at h ⊢
      split at h
      · rename_i k v heq
        obtain ⟨pre, blank, post, he, hblank, hpre, hrest⟩ := ih _ h
        refine ⟨raw :: pre, blank, post, by rw [he]; rfl, hblank, ?_, ?_⟩
        · intro p hp
          cases List.mem_cons.mp hp with
          | inl hp0 =>
            subst hp0
            exact ⟨hb, by rw [heq]; rfl⟩
          | inr hp1 => exact hpre p hp1
        · exact hrest
      · simp at h

theorem trimLeadingEmptyLines_eq_dropWhile (input : List Str) :
    trimLeadingEmptyLines input = input.dropWhile (fun l => decide (l = [])) := by
  induction input with
  | nil => rfl
  | cons l ls ih =>
    unfold trimLeadingEmptyLines
    by_cases hl : l = []
    · simp [hl, ih]
    · simp [hl]

theorem signatureStep_no_end (t : List Str) (st : List Str × Str)
    (h : ∀ l ∈ t, isCorrectEndSectionSeperator l = false) :
    (t.foldl signatureStep st).1 = st.1 := by
  induction t generalizing st with
  | nil => rfl
  | cons l ls ih =>
    have hl := h l (List.mem_cons_self _ _)
    have hls := fun x hx => h x (List.mem_cons_of_mem _ hx)
    rw [List.foldl_cons, ih _ hls]
    unfold signatureStep
    simp only [hl, Bool.false_eq_true, if_false]
    by_cases hb : isCorrectBeginSectionSeperator l = true
    · simp [hb]
    · by_cases hc : lineContainsHeader l = true
      · simp [hb, hc]
      · simp [hb, hc]

/-! ## Joining and splitting on newlines -/

theorem splitNewlineAux_line (l cur s : Str) (h : '\n' ∉ l) :
    splitNewlineAux cur (l ++ s) = splitNewlineAux (l.reverse ++ cur) s := by
  induction l generalizing cur with
  | nil => rfl
  | cons c cs ih =>
    have hc : c ≠ '\n' := fun e => h (by rw [e]; exact List.mem_cons_self _ _)
    have hcs : '\n' ∉ cs := fun e => h (List.mem_cons_of_mem _ e)
    rw [List.cons_append, splitNewlineAux]
    simp only [hc, if_false]
    rw [ih _ hcs]
    simp

theorem joinLines_cons_cons (l l2 : Str) (ls : List Str) :
    joinLines (l :: l2 :: ls) = l ++ '\n' :: joinLines (l2 :: ls) := by
  simp [joinLines, List.intercalate, List.intersperse]

theorem joinLines_singleton (l : Str) : joinLines [l] = l := by
  simp [joinLines, List.intercalate, List.intersperse]

theorem splitNewline_joinLines : ∀ (ls : List Str), ls ≠ [] → (∀ l ∈ ls, '\n' ∉ l) →
    splitNewline (joinLines ls) = ls
  | [], h, _ => absurd rfl h
  | [l], _, hl => by
    have h0 := hl l (List.mem_cons_self _ _)
    have := splitNewlineAux_line l [] [] h0
    rw [joinLines_singleton]
    unfold splitNewline
    rw [List.append_nil] at this
    rw [this]
    simp [splitNewlineAux]
  | l :: l2 :: ls, _, hl => by
    have h0 := hl l (List.mem_cons_self _ _)
    have hrest : ∀ x ∈ l2 :: ls, '\n' ∉ x := fun x hx => hl x (List.mem_cons_of_mem _ hx)
    have ih := splitNewline_joinLines (l2 :: ls) (by simp) hrest
    rw [joinLines_cons_cons]
    unfold splitNewline at ih ⊢
    rw [splitNewlineAux_line l [] _ h0, splitNewlineAux]
    simp only [if_true]
    rw [ih]
    simp

theorem mem_trim (line : Str) (c : Char) (h : c ∈ trim line) : c ∈ line := by
  unfold trim at h
  have h1 := (List.rdropWhile_prefix inCutset (line.dropWhile inCutset)).subset h
  exact (List.dropWhile_suffix inCutset).subset h1

/-! ## What a signature is built from -/

theorem BuiltFrom.mono (p q : List Str) (s : Str) (h : BuiltFrom p s) :
    BuiltFrom (p ++ q) s := by
  obtain ⟨ls, hsub, hgood, hs⟩ := h
  exact ⟨ls, hsub.trans (List.sublist_append_left p q), hgood, hs⟩

theorem BuiltFrom.no_colon (p : List Str) (s : Str) (h : BuiltFrom p s) : ':' ∉ s := by
  obtain ⟨ls, _, hgood, hs⟩ := h
  intro hc
  rw [hs] at hc
  obtain ⟨l, hl, hcl⟩ := List.mem_flatten.mp hc
  exact (hgood l hl).2.2 hcl

theorem signatureStep_builtFrom (p : List Str) (st : List Str × Str) (line : Str)
    (h1 : ∀ sig ∈ st.1, BuiltFrom p sig) (h2 : BuiltFrom p st.2) :
    (∀ sig ∈ (signatureStep st line).1, BuiltFrom (p ++ [line]) sig) ∧
      BuiltFrom (p ++ [line]) (signatureStep st line).2 := by
  have m1 : ∀ sig ∈ st.1, BuiltFrom (p ++ [line]) sig :=
    fun sig hs => BuiltFrom.mono p [line] sig (h1 sig hs)
  have m2 : BuiltFrom (p ++ [line]) st.2 := BuiltFrom.mono p [line] _ h2
  unfold signatureStep
  by_cases he : isCorrectEndSectionSeperator line = true
  · simp only [he, if_true]
    refine ⟨?_, m2⟩
    intro sig hs
    cases List.mem_append.mp hs with
    | inl h => exact m1 sig h
    | inr h =>
      rw [List.mem_singleton.mp h]
      exact m2
  · by_cases hb : isCorrectBeginSectionSeperator line = true
    · simp only [he, hb, if_true, if_false]
      exact ⟨m1, [], List.nil_sublist _, by simp, rfl⟩
    · by_cases hc : lineContainsHeader line = true
      · simp only [he, hb, hc, if_true, if_false]
        exact ⟨m1, m2⟩
      · simp only [he, hb, hc, if_false]
        refine ⟨m1, ?_⟩
        obtain ⟨ls, hsub, hgood, hs⟩ := h2
        refine ⟨ls ++ [line], hsub.append (List.Sublist.refl _), ?_, ?_⟩
        · intro l hl
          cases List.mem_append.mp hl with
          | inl h => exact hgood l h
          | inr h =>
            rw [List.mem_singleton.mp h]
            refine ⟨by simpa using hb, by simpa using he, ?_⟩
            simpa [lineContainsHeader, containsColon] using hc
        · rw [hs]
          simp

theorem foldl_signatureStep_builtFrom (t p : List Str) (st : List Str × Str)
    (h1 : ∀ sig ∈ st.1, BuiltFrom p sig) (h2 : BuiltFrom p st.2) :
    (∀ sig ∈ (t.foldl signatureStep st).1, BuiltFrom (p ++ t) sig) ∧
      BuiltFrom (p ++ t) (t.foldl signatureStep st).2 := by
  induction t generalizing p st with
  | nil => simpa using ⟨h1, h2⟩
  | cons l ls ih =>
    obtain ⟨s1, s2⟩ := signatureStep_builtFrom p st l h1 h2
    have := ih (p ++ [l]) (signatureStep st l) s1 s2
    rw [List.append_assoc] at this
    exact this

/-! ## The claims -/

/-- C1 (Scenario A): on the eight plaintext lines `parseMessage` returns the type
`SIGNED CONTRACT`, but the payload is `"\nsomething sane"` (the blank line that
ends the headers is the first payload line) and there are two signature entries
(the closing `-----END SIGNED CONTRACT-----` line appends the accumulator a
second time), not the payload `"something sane"` and the single signature that
`TestContract` asserts. -/
theorem parseMessage_scenarioA :
    parseMessage scenarioA = .returned
      { Type_ := "SIGNED CONTRACT".toList
        Payload := "\nsomething sane".toList
        Signatures := ["something sane".toList, "something sane".toList] } := by
  decide

/-- C2: when the first non-empty line is a BEGIN separator followed by at least
one more line, `getType` succeeds; the line is `-----BEGIN`, a label, `-----`,
the type is the trimmed label, it neither starts nor ends with a space or tab,
and the remainder is the lines after the separator. -/
theorem getType_begin_separator (blanks rest : List Str) (line : Str)
    (hblank : ∀ b ∈ blanks, b = [])
    (hsep : isCorrectBeginSectionSeperator line = true)
    (hrest : 1 ≤ rest.length) :
    ∃ label, line = sectionBegin ++ label ++ sectionEndOfLine ∧
      getType (blanks ++ line :: rest) = (rest, trim label, none) ∧
      (∀ c, (trim label).head? = some c → c ≠ ' ' ∧ c ≠ '\t') ∧
      (∀ c, (trim label).getLast? = some c → c ≠ ' ' ∧ c ≠ '\t') := by
  obtain ⟨label, hl⟩ := begin_separator_shape line hsep
  refine ⟨label, hl, ?_, ?_, ?_⟩
  · have hne : line ≠ [] := by
      rw [hl]
      simp [sectionBegin]
    have ht := trimLeadingEmptyLines_blanks blanks rest line hblank hne
    match rest, hrest with
    | b :: tl, _ =>
      rw [getType_long _ line b tl ht, hsep, hl, parseSectionSeperator_shape]
      rfl
  · intro c hc
    have := trim_head_not_cut label c hc
    simpa [inCutset] using this
  · intro c hc
    have := trim_last_not_cut label c hc
    simpa [inCutset] using this

theorem getType_begin_separator_witness :
    ∃ label, "-----BEGIN SIGNED ACCOUNT-----".toList = sectionBegin ++ label ++ sectionEndOfLine ∧
      getType ([[], []] ++ "-----BEGIN SIGNED ACCOUNT-----".toList :: ["Version: 1".toList])
        = (["Version: 1".toList], trim label, none) ∧
      (∀ c, (trim label).head? = some c → c ≠ ' ' ∧ c ≠ '\t') ∧
      (∀ c, (trim label).getLast? = some c → c ≠ ' ' ∧ c ≠ '\t') :=
  getType_begin_separator [[], []] ["Version: 1".toList] "-----BEGIN SIGNED ACCOUNT-----".toList
    (by decide) (by decide) (by decide)

/-- C3: on a document of `k ≥ 1` consecutive well-formed signature sections,
`getSignatures` succeeds and returns exactly `k` strings in document order, the
`i`-th being the concatenation, with nothing in between, of the body lines of
the `i`-th section that contain no `:`. -/
theorem getSignatures_sections (sections : List SignatureSection)
    (hk : 1 ≤ sections.length) (hwf : ∀ s ∈ sections, s.wellFormed) :
    getSignatures (signatureDocument sections)
        = .returned (sections.map SignatureSection.signature, none) ∧
      (sections.map SignatureSection.signature).length = sections.length := by
  refine ⟨?_, by simp⟩
  have hfold := signatureStep_document sections ([], []) hwf
  match sections, hk, hwf with
  | s :: ss, _, hwf =>
    have hs := hwf s (List.mem_cons_self _ _)
    have hd : signatureDocument (s :: ss)
        = s.beginLine :: (s.body ++ [s.endLine] ++ signatureDocument ss) := by
      simp [signatureDocument, SignatureSection.lines]
    rw [hd] at hfold ⊢
    unfold getSignatures
    simp only [hs.1, Bool.not_true, Bool.false_eq_true, if_false]
    rw [hfold]
    simp

theorem getSignatures_sections_witness :
    getSignatures (signatureDocument twoSections)
        = .returned (twoSections.map SignatureSection.signature, none) ∧
      (twoSections.map SignatureSection.signature).length = twoSections.length :=
  getSignatures_sections twoSections (by decide) (by decide)

/-- C4, as stated, fails: on `indentedSignature` the signature stage fails with
"Expected a list of signatures", yet `parseMessage` returns a `Message`, with
an empty `Signatures` field. -/
theorem parseMessage_not_fail_fast :
    getSignatures (getPayload (getHeaders (getType indentedSignature).1).1).1
        = .returned ([], some "Expected a list of signatures".toList) ∧
      parseMessage indentedSignature
        = .returned { Type_ := "T".toList, Payload := [], Signatures := [] } := by
  decide

/-- C4, amended: errors are logged, not propagated.  A `Message` returned by
`parseMessage` carries the type of `getType`, the joined payload of
`getPayload` and the signatures of `getSignatures`, each stage run on the
remainder of the previous one; `getType`, `getHeaders` and `getPayload` have
then all succeeded, while `getSignatures` may have failed, in which case the
`Signatures` field is empty. -/
theorem parseMessage_stage_errors (lines : List Str) (m : Message)
    (h : parseMessage lines = .returned m) :
    (getType lines).2.2 = none ∧
      (getHeaders (getType lines).1).2.2 = none ∧
      (getPayload (getHeaders (getType lines).1).1).2.2 = none ∧
      m.Type_ = (getType lines).2.1 ∧
      m.Payload = joinLines (getPayload (getHeaders (getType lines).1).1).2.1 ∧
      ∃ err, getSignatures (getPayload (getHeaders (getType lines).1).1).1
          = .returned (m.Signatures, err) ∧
        (err ≠ none → m.Signatures = []) := by
  unfold parseMessage at h
  simp only at h
  have hsig : ∃ sigs err, getSignatures (getPayload (getHeaders (getType lines).1).1).1
      = .returned (sigs, err) := by
    cases hs : getSignatures (getPayload (getHeaders (getType lines).1).1).1 with
    | indexOutOfRange => rw [hs] at h; simp at h
    | returned a => exact ⟨a.1, a.2, rfl⟩
  obtain ⟨sigs, err, hs⟩ := hsig
  rw [hs] at h
  simp only [GoResult.returned.injEq] at h
  have hr3 : (getPayload (getHeaders (getType lines).1).1).1 ≠ [] := by
    intro h0
    rw [h0] at hs
    simp [getSignatures] at hs
  have hp : (getPayload (getHeaders (getType lines).1).1).2.2 = none := by
    by_contra hc
    exact hr3 (getPayload_err_rest _ hc)
  have hr2 : (getHeaders (getType lines).1).1 ≠ [] := by
    intro h0
    rw [h0] at hp
    exact getPayload_nil_err hp
  have hh : (getHeaders (getType lines).1).2.2 = none := by
    by_contra hc
    exact hr2 (getHeadersLoop_err_rest _ _ hc)
  have hr1 : (getType lines).1 ≠ [] := by
    intro h0
    rw [h0] at hh
    exact getHeaders_nil_err hh
  have ht : (getType lines).2.2 = none := by
    by_contra hc
    exact hr1 (getType_err_rest _ hc)
  subst h
  refine ⟨ht, hh, hp, rfl, rfl, err, hs, ?_⟩
  intro herr
  match hm : (getPayload (getHeaders (getType lines).1).1).1 with
  | [] => exact absurd hm hr3
  | first :: later =>
    rw [hm] at hs
    unfold getSignatures at hs
    by_cases hb : isCorrectBeginSectionSeperator first = true
    · simp [hb] at hs
      exact absurd hs.2.symm herr
    · simp [hb] at hs
      exact hs.1

theorem parseMessage_stage_errors_witness :
    parseMessage indentedSignature
        = .returned { Type_ := "T".toList, Payload := [], Signatures := [] } ∧
      (getPayload (getHeaders (getType indentedSignature).1).1).2.2 = none ∧
      ∃ err, getSignatures (getPayload (getHeaders (getType indentedSignature).1).1).1
          = .returned ([], err) ∧ (err ≠ none → ([] : List Str) = []) :=
  ⟨by decide,
    (parseMessage_stage_errors indentedSignature
      { Type_ := "T".toList, Payload := [], Signatures := [] } (by decide)).2.2.1,
    (parseMessage_stage_errors indentedSignature
      { Type_ := "T".toList, Payload := [], Signatures := [] } (by decide)).2.2.2.2.2⟩

/-- C5 fails on the code: `parseMessage` stops with an out-of-range index on
the empty input and on a document whose payload block is closed by an END
separator, because `getPayload` then hands an empty remainder to
`getSignatures`, which evaluates `in[0]` without a length check. -/
theorem parseMessage_index_out_of_range :
    parseMessage [] = .indexOutOfRange ∧
      getPayload (getHeaders (getType endTerminated).1).1
        = ([], ["".toList, "something sane".toList], none) ∧
      parseMessage endTerminated = .indexOutOfRange := by
  decide

/-- C6, as stated, fails: `getType` succeeds on `unlabelled` and returns the
empty type. -/
theorem getType_empty_type :
    ¬ ∀ input : List Str, (getType input).2.2 = none → (getType input).2.1 ≠ [] := by
  intro h
  exact h unlabelled (by decide) (by decide)

/-- C6, amended: whenever `getType` succeeds, the first non-empty line is
`-----BEGIN`, a label, `-----`, the type is the trimmed label, and the type is
non-empty exactly when the label has a character other than space and tab. -/
theorem getType_type_nonempty_iff (input : List Str) (h : (getType input).2.2 = none) :
    ∃ label next later,
      trimLeadingEmptyLines input
        = (sectionBegin ++ label ++ sectionEndOfLine) :: next :: later ∧
      (getType input).1 = next :: later ∧
      (getType input).2.1 = trim label ∧
      ((getType input).2.1 ≠ [] ↔ ∃ c ∈ label, c ≠ ' ' ∧ c ≠ '\t') := by
  match hm : trimLeadingEmptyLines input with
  | [] => rw [getType_short input (by simp [hm])] at h; simp at h
  | [_] => rw [getType_short input (by simp [hm])] at h; simp at h
  | a :: b :: tl =>
    rw [getType_long input a b tl hm] at h ⊢
    by_cases hb : isCorrectBeginSectionSeperator a = true
    · obtain ⟨label, hl⟩ := begin_separator_shape a hb
      refine ⟨label, b, tl, by rw [hl], by simp [hb], ?_, ?_⟩
      · simp only [hb, if_true]
        rw [hl, parseSectionSeperator_shape]
      · simp only [hb, if_true]
        rw [hl, parseSectionSeperator_shape, Ne, trim_eq_nil_iff]
        simp [inCutset]
    · simp [hb] at h

theorem getType_type_nonempty_iff_witness :
    ∃ label next later,
      trimLeadingEmptyLines scenarioA
        = (sectionBegin ++ label ++ sectionEndOfLine) :: next :: later ∧
      (getType scenarioA).1 = next :: later ∧
      (getType scenarioA).2.1 = trim label ∧
      ((getType scenarioA).2.1 ≠ [] ↔ ∃ c ∈ label, c ≠ ' ' ∧ c ≠ '\t') :=
  getType_type_nonempty_iff scenarioA (by decide)

/-- C7: if a non-blank line with only non-blank lines before it does not split
on `": "` into exactly two parts (in particular if it has no `": "`, or two
occurrences of it), `getHeaders` returns an error, no remainder and no map. -/
theorem getHeaders_rejects_bad_line (pre post : List Str) (bad : Str)
    (hpre : ∀ p ∈ pre, trim p ≠ []) (hbad : trim bad ≠ [])
    (hsplit : (splitColonSpace (trim bad)).length ≠ 2 ∨
      ¬ (": ".toList <:+: trim bad) ∨
      ∃ a b c, trim bad = a ++ ": ".toList ++ b ++ ": ".toList ++ c) :
    (getHeaders (pre ++ bad :: post)).1 = [] ∧
      (getHeaders (pre ++ bad :: post)).2.1 = none ∧
      (getHeaders (pre ++ bad :: post)).2.2 ≠ none := by
  have hlen : (splitColonSpace (trim bad)).length ≠ 2 := by
    rcases hsplit with h | h | ⟨a, b, c, h⟩
    · exact h
    · rw [splitColonSpace_absent _ h]
      decide
    · have := splitColonSpace_twice a b c
      rw [h]
      omega
  exact getHeadersLoop_bad pre post bad [] hpre hbad hlen

theorem getHeaders_rejects_bad_line_witness :
    (getHeaders (["Version: 1".toList] ++ "a: b: c".toList :: [[], "x".toList])).1 = [] ∧
      (getHeaders (["Version: 1".toList] ++ "a: b: c".toList :: [[], "x".toList])).2.1 = none ∧
      (getHeaders (["Version: 1".toList] ++ "a: b: c".toList :: [[], "x".toList])).2.2 ≠ none :=
  getHeaders_rejects_bad_line ["Version: 1".toList] [[], "x".toList] "a: b: c".toList
    (by decide) (by decide)
    (Or.inr (Or.inr ⟨"a".toList, "b".toList, "c".toList, by decide⟩))

/-- C8, as stated, fails: the line `"Key: "` is not blank after trimming and
splits on `": "` into the two parts `"Key"` and `""`, but `getHeaders` splits
the trimmed line `"Key:"`, which has one part, and fails with "Invalid header
kv-pairs: Key:" instead of "Invalid transaction header". -/
theorem getHeaders_untrimmed_split :
    (¬ ∀ input : List Str,
        (∀ l ∈ input, trim l ≠ [] ∧ (splitColonSpace l).length = 2) →
          getHeaders input = ([], none, some "Invalid transaction header".toList)) ∧
      splitColonSpace "Key: ".toList = ["Key".toList, "".toList] ∧
      getHeaders ["Key: ".toList]
        = ([], none, some "Invalid header kv-pairs: Key:".toList) := by
  refine ⟨?_, by decide, by decide⟩
  intro h
  have h1 := h ["Key: ".toList] (by decide)
  have h2 : getHeaders ["Key: ".toList]
      = ([], none, some "Invalid header kv-pairs: Key:".toList) := by decide
  rw [h2] at h1
  revert h1
  decide

/-- C8, amended (Scenario D): when no line is blank after trimming spaces and
tabs and every line, after that trimming, splits on `": "` into exactly two
parts, `getHeaders` fails with "Invalid transaction header" and returns neither
a remainder nor a map. -/
theorem getHeaders_unterminated (input : List Str)
    (h : ∀ l ∈ input, trim l ≠ [] ∧ (splitColonSpace (trim l)).length = 2) :
    getHeaders input = ([], none, some "Invalid transaction header".toList) :=
  getHeadersLoop_unterminated input [] h

theorem getHeaders_unterminated_witness :
    getHeaders ["Version: 1".toList, " Comment: none\t".toList]
      = ([], none, some "Invalid transaction header".toList) :=
  getHeaders_unterminated ["Version: 1".toList, " Comment: none\t".toList] (by decide)

/-- C9: `getPayload` fails exactly when it is given fewer than two lines or no
line is, after trimming, a BEGIN or END separator; with at least two lines and
no separator (Scenario E) the error is "Malformed payload". -/
theorem getPayload_fails_iff (input : List Str) :
    ((getPayload input).2.2 ≠ none ↔
        (input.length < 2 ∨
          ∀ l ∈ input, isCorrectBeginSectionSeperator (trim l) = false ∧
            isCorrectEndSectionSeperator (trim l) = false)) ∧
      (2 ≤ input.length →
        (∀ l ∈ input, isCorrectBeginSectionSeperator (trim l) = false ∧
          isCorrectEndSectionSeperator (trim l) = false) →
        getPayload input = ([], [], some "Malformed payload".toList)) := by
  constructor
  · constructor
    · intro herr
      by_cases hl : input.length < 2
      · exact Or.inl hl
      · right
        by_contra hc
        have hex : ∃ l ∈ input, isCorrectBeginSectionSeperator (trim l) = true ∨
            isCorrectEndSectionSeperator (trim l) = true := by
          by_contra hne
          apply hc
          intro l hmem
          constructor
          · by_contra hb
            exact hne ⟨l, hmem, Or.inl (by simpa using hb)⟩
          · by_contra he
            exact hne ⟨l, hmem, Or.inr (by simpa using he)⟩
        obtain ⟨pre, line, post, he, hpre, hline⟩ := first_separator_split input hex
        unfold getPayload at herr
        simp only [hl, if_false] at herr
        rw [he, getPayloadLoop_separator pre post line [] hpre hline] at herr
        exact herr rfl
    · intro h
      unfold getPayload
      by_cases hl : input.length < 2
      · simp [hl]
      · rcases h with h | h
        · exact absurd h hl
        · simp only [hl, if_false]
          rw [getPayloadLoop_no_separator input [] h]
          simp
  · intro hlen h
    unfold getPayload
    have hl : ¬ input.length < 2 := by omega
    simp only [hl, if_false]
    exact getPayloadLoop_no_separator input [] h

theorem getPayload_fails_iff_witness :
    getPayload ["".toList, "something sane".toList, "more".toList]
      = ([], [], some "Malformed payload".toList) :=
  (getPayload_fails_iff ["".toList, "something sane".toList, "more".toList]).2
    (by decide) (by decide)

/-- C10: on at least two lines whose first line that is a separator after
trimming is `line`, `getPayload` succeeds, the payload is the trimmed lines
before it in order, the remainder is the untouched suffix starting at `line`
when it is a BEGIN separator, and empty when it is an END separator. -/
theorem getPayload_first_separator (pre post : List Str) (line : Str)
    (hlen : 2 ≤ (pre ++ line :: post).length)
    (hpre : ∀ p ∈ pre, isCorrectBeginSectionSeperator (trim p) = false ∧
      isCorrectEndSectionSeperator (trim p) = false)
    (hline : isCorrectBeginSectionSeperator (trim line) = true ∨
      isCorrectEndSectionSeperator (trim line) = true) :
    (getPayload (pre ++ line :: post)).2.1 = pre.map trim ∧
      (getPayload (pre ++ line :: post)).2.2 = none ∧
      (isCorrectBeginSectionSeperator (trim line) = true →
        (getPayload (pre ++ line :: post)).1 = line :: post) ∧
      (isCorrectEndSectionSeperator (trim line) = true →
        (getPayload (pre ++ line :: post)).1 = []) := by
  have hl : ¬ (pre ++ line :: post).length < 2 := by omega
  have hp : getPayload (pre ++ line :: post)
      = getPayloadLoop (pre ++ line :: post) [] := by
    unfold getPayload
    simp only [hl, if_false]
  rw [hp, getPayloadLoop_separator pre post line [] hpre hline]
  refine ⟨by simp, rfl, ?_, ?_⟩
  · intro hb
    have he : ¬ isCorrectEndSectionSeperator (trim line) = true := by
      intro he
      have := not_begin_of_end _ he
      rw [hb] at this
      simp at this
    simp [he]
  · intro he
    simp [he]

theorem getPayload_first_separator_witness :
    (getPayload (["".toList, " something sane ".toList]
        ++ "\t-----BEGIN SIGNATURE-----".toList :: ["x".toList])).2.1
        = ["".toList, " something sane ".toList].map trim ∧
      (getPayload (["".toList, " something sane ".toList]
        ++ "\t-----BEGIN SIGNATURE-----".toList :: ["x".toList])).2.2 = none ∧
      (isCorrectBeginSectionSeperator (trim "\t-----BEGIN SIGNATURE-----".toList) = true →
        (getPayload (["".toList, " something sane ".toList]
          ++ "\t-----BEGIN SIGNATURE-----".toList :: ["x".toList])).1
          = "\t-----BEGIN SIGNATURE-----".toList :: ["x".toList]) ∧
      (isCorrectEndSectionSeperator (trim "\t-----BEGIN SIGNATURE-----".toList) = true →
        (getPayload (["".toList, " something sane ".toList]
          ++ "\t-----BEGIN SIGNATURE-----".toList :: ["x".toList])).1 = []) :=
  getPayload_first_separator ["".toList, " something sane ".toList] ["x".toList]
    "\t-----BEGIN SIGNATURE-----".toList (by decide) (by decide) (by decide)

/-- C11: when `getPayload` succeeds, no line of the returned payload is a BEGIN
or an END separator; and when no input line contains a newline, no line of the
`Payload` field (the payload joined with newlines, split again on newlines) is
one either. -/
theorem getPayload_no_separator_line (input : List Str)
    (h : (getPayload input).2.2 = none) :
    (∀ l ∈ (getPayload input).2.1,
        isCorrectBeginSectionSeperator l = false ∧ isCorrectEndSectionSeperator l = false) ∧
      ((∀ l ∈ input, '\n' ∉ l) →
        ∀ l ∈ splitNewline (joinLines (getPayload input).2.1),
          isCorrectBeginSectionSeperator l = false ∧
            isCorrectEndSectionSeperator l = false) := by
  obtain ⟨_, pre, line, post, he, hpre, _, hres⟩ := getPayload_success_shape input h
  rw [hres]
  have hlines : ∀ l ∈ pre.map trim,
      isCorrectBeginSectionSeperator l = false ∧ isCorrectEndSectionSeperator l = false := by
    intro l hl
    obtain ⟨p, hp, hpl⟩ := List.mem_map.mp hl
    rw [← hpl]
    exact hpre p hp
  refine ⟨hlines, ?_⟩
  intro hnl l hl
  by_cases hempty : pre.map trim = []
  · simp only [hempty] at hl
    have hl2 : l = [] := by
      revert hl
      simp [joinLines, splitNewline, splitNewlineAux, List.intercalate]
    subst hl2
    decide
  · have hno : ∀ x ∈ pre.map trim, '\n' ∉ x := by
      intro x hx hc
      obtain ⟨p, hp, hpx⟩ := List.mem_map.mp hx
      rw [← hpx] at hc
      have hmem : p ∈ input := by
        rw [he]
        exact List.mem_append_left _ hp
      exact hnl p hmem (mem_trim p _ hc)
    simp only at hl
    rw [splitNewline_joinLines _ hempty hno] at hl
    exact hlines l hl

theorem getPayload_no_separator_line_witness :
    (∀ l ∈ (getPayload indentedPayload).2.1,
        isCorrectBeginSectionSeperator l = false ∧ isCorrectEndSectionSeperator l = false) ∧
      ((∀ l ∈ indentedPayload, '\n' ∉ l) →
        ∀ l ∈ splitNewline (joinLines (getPayload indentedPayload).2.1),
          isCorrectBeginSectionSeperator l = false ∧
            isCorrectEndSectionSeperator l = false) :=
  getPayload_no_separator_line indentedPayload (by decide)

/-- C12: when `getHeaders` succeeds, the input is `key: value` lines, then a
line that is blank after trimming, then the rest; the remainder starts at that
blank line, which is kept as it is. -/
theorem getHeaders_success_remainder (input : List Str)
    (h : (getHeaders input).2.2 = none) :
    ∃ pre blank post, input = pre ++ blank :: post ∧ trim blank = [] ∧
      (∀ p ∈ pre, trim p ≠ [] ∧ (splitColonSpace (trim p)).length = 2) ∧
      (getHeaders input).1 = blank :: post :=
  getHeadersLoop_success_shape input [] h

theorem getHeaders_success_remainder_witness :
    ∃ pre blank post,
      ["Version: 1".toList, " \t".toList, "something sane".toList]
        = pre ++ blank :: post ∧ trim blank = [] ∧
      (∀ p ∈ pre, trim p ≠ [] ∧ (splitColonSpace (trim p)).length = 2) ∧
      (getHeaders ["Version: 1".toList, " \t".toList, "something sane".toList]).1
        = blank :: post :=
  getHeaders_success_remainder
    ["Version: 1".toList, " \t".toList, "something sane".toList] (by decide)

/-- C13: `getType` fails exactly when, the leading empty lines skipped, fewer
than two lines remain or the first remaining line is not a BEGIN separator; on
failure the remainder and the type are empty. -/
theorem getType_fails_iff (input : List Str) :
    ((getType input).2.2 ≠ none ↔
        ((input.dropWhile (fun l => decide (l = []))).length < 2 ∨
          ∃ l, (input.dropWhile (fun l => decide (l = []))).head? = some l ∧
            isCorrectBeginSectionSeperator l = false)) ∧
      ((getType input).2.2 ≠ none →
        (getType input).1 = [] ∧ (getType input).2.1 = []) := by
  rw [← trimLeadingEmptyLines_eq_dropWhile]
  match hm : trimLeadingEmptyLines input with
  | [] => rw [getType_short input (by simp [hm])]; simp
  | [_] => rw [getType_short input (by simp [hm])]; simp
  | a :: b :: tl =>
    rw [getType_long input a b tl hm]
    by_cases hb : isCorrectBeginSectionSeperator a = true
    · simp [hb]
    · simp [hb]

theorem getType_fails_iff_witness :
    (getType ["".toList, "Version: 1".toList, "x".toList]).1 = [] ∧
      (getType ["".toList, "Version: 1".toList, "x".toList]).2.1 = [] :=
  (getType_fails_iff ["".toList, "Version: 1".toList, "x".toList]).2 (by decide)

/-- C14: on a non-empty remainder `getSignatures` fails with "Expected a list of
signatures", returning no signatures, exactly when the first line is not a
BEGIN separator; otherwise it succeeds. -/
theorem getSignatures_fails_iff (first : Str) (later : List Str) :
    (getSignatures (first :: later)
          = .returned ([], some "Expected a list of signatures".toList) ↔
        isCorrectBeginSectionSeperator first = false) ∧
      ((∃ sigs, getSignatures (first :: later) = .returned (sigs, none)) ↔
        isCorrectBeginSectionSeperator first = true) := by
  unfold getSignatures
  by_cases hb : isCorrectBeginSectionSeperator first = true
  · simp [hb]
  · simp [hb]

/-- C15: content after the last END separator is ignored: if `getSignatures`
accepts `r` and no line of `t` is an END separator, then `getSignatures` returns
on `r ++ t` the signatures it returns on `r`. -/
theorem getSignatures_trailing (r t : List Str) (sigs : List Str)
    (h : getSignatures r = .returned (sigs, none))
    (ht : ∀ l ∈ t, isCorrectEndSectionSeperator l = false) :
    getSignatures (r ++ t) = .returned (sigs, none) := by
  match r, h with
  | first :: later, h =>
    rw [List.cons_append]
    unfold getSignatures at h ⊢
    by_cases hb : isCorrectBeginSectionSeperator first = true
    · simp only [hb, Bool.not_true, Bool.false_eq_true, if_false] at h ⊢
      rw [← List.cons_append, List.foldl_append, signatureStep_no_end t _ ht]
      exact h
    · simp [hb] at h

theorem getSignatures_trailing_witness :
    getSignatures (signatureRemainder ++ ["trailing".toList, "-----BEGIN X-----".toList])
      = .returned (["abc".toList, "abcdef".toList], none) :=
  getSignatures_trailing signatureRemainder ["trailing".toList, "-----BEGIN X-----".toList]
    ["abc".toList, "abcdef".toList] (by decide) (by decide)

/-- C16: on a document of `n ≥ 6` lines `removeArmoringDelimiters` returns the
`n - 6` lines at positions `4 .. n-3`, unchanged and in order: the document is
its first four lines, the returned body and its last two lines. -/
theorem removeArmoringDelimiters_body (lines : List Str) (h : 6 ≤ lines.length) :
    ∃ body, removeArmoringDelimiters lines = .returned body ∧
      body.length = lines.length - 6 ∧
      (∀ i, i < lines.length - 6 → body[i]? = lines[4 + i]?) ∧
      lines = lines.take 4 ++ body ++ lines.drop (lines.length - 2) := by
  have hc : (4 : Int) ≤ (lines.length : Int) - 2 := by omega
  refine ⟨(lines.take (lines.length - 2)).drop 4, ?_, ?_, ?_, ?_⟩
  · unfold removeArmoringDelimiters
    simp only [hc, if_true]
  · rw [List.length_drop, List.length_take]
    omega
  · intro i hi
    rw [List.getElem?_drop, List.getElem?_take]
    have : 4 + i < lines.length - 2 := by omega
    simp [this]
  · have e1 : lines.take 4 = (lines.take (lines.length - 2)).take 4 := by
      rw [List.take_take]
      congr 1
      omega
    rw [e1, List.take_append_drop, List.take_append_drop]

theorem removeArmoringDelimiters_body_witness :
    ∃ body, removeArmoringDelimiters armored = .returned body ∧
      body.length = armored.length - 6 ∧
      (∀ i, i < armored.length - 6 → body[i]? = armored[4 + i]?) ∧
      armored = armored.take 4 ++ body ++ armored.drop (armored.length - 2) :=
  removeArmoringDelimiters_body armored (by decide)

/-- C17 fails on the code: on fewer than six lines `NewMessage` returns nothing
at all; the slice expression of `removeArmoringDelimiters` is out of range,
whatever the decoders are. -/
theorem NewMessage_short_input {Data : Type} (decodeString : Str → Option Data)
    (decompress : Data → Option Str) (lines : List Str) (h : lines.length < 6) :
    NewMessage decodeString decompress lines = .indexOutOfRange := by
  have hc : ¬ (4 : Int) ≤ (lines.length : Int) - 2 := by omega
  unfold NewMessage removeArmoringDelimiters
  simp only [hc, if_false]

theorem NewMessage_short_input_witness :
    NewMessage (fun s : Str => some s) (fun d : Str => some d) (armored.take 5)
      = .indexOutOfRange :=
  NewMessage_short_input (fun s : Str => some s) (fun d : Str => some d) (armored.take 5)
    (by decide)

/-- C18, as stated, fails: `getPayload` succeeds on `indentedPayload` with a
non-empty remainder, and `getSignatures` rejects that remainder. -/
theorem getPayload_handoff_rejected :
    ¬ ∀ input : List Str, (getPayload input).2.2 = none → (getPayload input).1 ≠ [] →
      ∃ sigs, getSignatures (getPayload input).1 = .returned (sigs, none) := by
  intro h
  obtain ⟨sigs, hs⟩ := h indentedPayload (by decide) (by decide)
  have hrej : getSignatures (getPayload indentedPayload).1
      = .returned ([], some "Expected a list of signatures".toList) := by decide
  rw [hrej] at hs
  simp at hs

/-- C18, amended: when `getPayload` succeeds with a non-empty remainder, the
first line of the remainder is a BEGIN separator once trimmed of spaces and
tabs; `getSignatures` accepts the remainder exactly when that line is a BEGIN
separator as it stands (so whenever trimming leaves it unchanged), and fails
with "Expected a list of signatures" otherwise. -/
theorem getPayload_handoff (input : List Str) (h : (getPayload input).2.2 = none)
    (hne : (getPayload input).1 ≠ []) :
    ∃ first later, (getPayload input).1 = first :: later ∧
      isCorrectBeginSectionSeperator (trim first) = true ∧
      ((∃ sigs, getSignatures (first :: later) = .returned (sigs, none)) ↔
        isCorrectBeginSectionSeperator first = true) ∧
      (trim first = first →
        ∃ sigs, getSignatures (first :: later) = .returned (sigs, none)) ∧
      (isCorrectBeginSectionSeperator first = false →
        getSignatures (first :: later)
          = .returned ([], some "Expected a list of signatures".toList)) := by
  obtain ⟨_, pre, line, post, _, _, hline, hres⟩ := getPayload_success_shape input h
  rw [hres] at hne ⊢
  by_cases he : isCorrectEndSectionSeperator (trim line) = true
  · simp [he] at hne
  · have hb : isCorrectBeginSectionSeperator (trim line) = true := by
      cases hline with
      | inl hb => exact hb
      | inr he2 => exact absurd he2 he
    refine ⟨line, post, by simp [he], hb, ?_, ?_, ?_⟩
    · unfold getSignatures
      by_cases hf : isCorrectBeginSectionSeperator line = true
      · simp [hf]
      · simp [hf]
    · intro ht
      rw [ht] at hb
      unfold getSignatures
      simp [hb]
    · intro hf
      unfold getSignatures
      simp [hf]

theorem getPayload_handoff_witness :
    ∃ first later, (getPayload indentedPayload).1 = first :: later ∧
      isCorrectBeginSectionSeperator (trim first) = true ∧
      ((∃ sigs, getSignatures (first :: later) = .returned (sigs, none)) ↔
        isCorrectBeginSectionSeperator first = true) ∧
      (trim first = first →
        ∃ sigs, getSignatures (first :: later) = .returned (sigs, none)) ∧
      (isCorrectBeginSectionSeperator first = false →
        getSignatures (first :: later)
          = .returned ([], some "Expected a list of signatures".toList)) :=
  getPayload_handoff indentedPayload (by decide) (by decide)

/-- C19: when `getType`, `getHeaders` and `getPayload` succeed in sequence, the
payload line list starts with the empty string, and the `Payload` field of any
`Message` that `parseMessage` returns is empty or begins with a newline. -/
theorem payload_starts_with_blank (lines : List Str)
    (_ht : (getType lines).2.2 = none)
    (hh : (getHeaders (getType lines).1).2.2 = none)
    (hp : (getPayload (getHeaders (getType lines).1).1).2.2 = none) :
    ∃ later, (getPayload (getHeaders (getType lines).1).1).2.1 = [] :: later ∧
      ∀ m, parseMessage lines = .returned m →
        m.Payload = [] ∨ ∃ s, m.Payload = '\n' :: s := by
  obtain ⟨hpre, blank, hpost, _, hblank, _, hrest⟩ :=
    getHeadersLoop_success_shape (getType lines).1 [] hh
  have hrest2 : (getHeaders (getType lines).1).1 = blank :: hpost := hrest
  obtain ⟨_, pre, line, post, he, _, hline, hres⟩ :=
    getPayload_success_shape (getHeaders (getType lines).1).1 hp
  have hnosep : ¬ (isCorrectBeginSectionSeperator (trim blank) = true ∨
      isCorrectEndSectionSeperator (trim blank) = true) := by
    rw [hblank]
    decide
  rw [hrest2] at he
  match pre, he with
  | [], he =>
    exfalso
    have : blank = line := by
      simp only [List.nil_append] at he
      exact (List.cons.inj he).1
    rw [this] at hnosep
    exact hnosep hline
  | p :: ps, he =>
    have hpb : blank = p := (List.cons.inj he).1
    have hpay : (getPayload (getHeaders (getType lines).1).1).2.1
        = [] :: ps.map trim := by
      rw [hres]
      simp only [List.map_cons]
      rw [← hpb, hblank]
    refine ⟨ps.map trim, hpay, ?_⟩
    intro m hm
    unfold parseMessage at hm
    simp only at hm
    have hmp : m.Payload = joinLines ([] :: ps.map trim) := by
      cases hs : getSignatures (getPayload (getHeaders (getType lines).1).1).1 with
      | indexOutOfRange => rw [hs] at hm; simp at hm
      | returned a =>
        rw [hs] at hm
        simp only [GoResult.returned.injEq] at hm
        rw [← hm, hpay]
    rw [hmp]
    match ps.map trim with
    | [] => left; rfl
    | l2 :: ls =>
      right
      exact ⟨joinLines (l2 :: ls), by rw [joinLines_cons_cons]; rfl⟩

theorem payload_starts_with_blank_witness :
    ∃ later, (getPayload (getHeaders (getType scenarioA).1).1).2.1 = [] :: later ∧
      ∀ m, parseMessage scenarioA = .returned m →
        m.Payload = [] ∨ ∃ s, m.Payload = '\n' :: s :=
  payload_starts_with_blank scenarioA (by decide) (by decide) (by decide)

/-- C20: when `getSignatures` succeeds, no returned signature contains a colon,
and each is the concatenation of lines of the remainder, taken in order, none
of which is a BEGIN or END separator or contains a colon. -/
theorem getSignatures_built_from (r sigs : List Str)
    (h : getSignatures r = .returned (sigs, none)) :
    ∀ sig ∈ sigs, ':' ∉ sig ∧
      ∃ ls : List Str, List.Sublist ls r ∧
        (∀ l ∈ ls, isCorrectBeginSectionSeperator l = false ∧
          isCorrectEndSectionSeperator l = false ∧ ':' ∉ l) ∧
        sig = ls.flatten := by
  match r, h with
  | first :: later, h =>
    unfold getSignatures at h
    by_cases hb : isCorrectBeginSectionSeperator first = true
    · simp only [hb, Bool.not_true, Bool.false_eq_true, if_false,
        GoResult.returned.injEq, Prod.mk.injEq, and_true] at h
      have hinv := foldl_signatureStep_builtFrom (first :: later) [] ([], [])
        (by simp) ⟨[], List.nil_sublist _, by simp, rfl⟩
      rw [h, List.nil_append] at hinv
      intro sig hs
      have hsig := hinv.1 sig hs
      exact ⟨BuiltFrom.no_colon _ _ hsig, hsig⟩
    · simp [hb] at h

theorem getSignatures_built_from_witness :
    ':' ∉ "abcdef".toList ∧
      ∃ ls : List Str, List.Sublist ls signatureRemainder ∧
        (∀ l ∈ ls, isCorrectBeginSectionSeperator l = false ∧
          isCorrectEndSectionSeperator l = false ∧ ':' ∉ l) ∧
        "abcdef".toList = ls.flatten :=
  getSignatures_built_from signatureRemainder ["abc".toList, "abcdef".toList] (by decide)
    "abcdef".toList (by decide)

end OpenTxs
